import Mathlib

/-!
# Verification of the filter-and-query engine of the German school-holiday API

Shallow embedding of the core logic of the repository: the predicate and
transform functions of `src/lib/filters.js` (date parsing, date-range / type /
state filters, field selection), the `DataLoader` record store of
`src/lib/dataLoader.js` (year cache, available-years enumeration), the year
validation and the statistics calculator of `src/routes/v2/index.js`.

Modelling conventions:
* JavaScript `Date` values are UTC millisecond timestamps, embedded as `Int`.
  A record's `start`/`end` ISO strings are embedded by the timestamps that
  `new Date(s)` yields for them, since the code only ever compares them.
* JavaScript strings are Lean `String`s; the code only uses ASCII data, where
  `String.toLower`/`String.toUpper`/`String.trim` agree with the JS methods.
* Thrown `Error`s become an `Except ApiError` result; the `ApiError`
  constructor records the error taxonomy kind of the throw site, and the
  carried `String` is the exact message the source builds.
* JavaScript objects (used by `selectFields` and by the per-state / per-type
  counters) are association lists in key-insertion order, which is how string
  keys of JS objects are ordered.
-/

namespace SchulferienApi

/-! ## Time: proleptic-Gregorian day numbers, as used by `Date.parse`

`new Date("YYYY-MM-DDT00:00:00.000Z")` yields `86400000 * d` milliseconds
where `d` is the number of days from 1970-01-01 in the proleptic Gregorian
calendar (the standard civil-from-days correspondence). -/

/-- Days from the epoch 1970-01-01 of the civil date `(y, m, d)`,
proleptic Gregorian calendar. `Int.fdiv` is floor division. -/
def daysFromCivil (y m d : Int) : Int :=
  let y' : Int := if m ≤ 2 then y - 1 else y
  let era : Int := Int.fdiv y' 400
  let yoe : Int := y' - era * 400
  let mp : Int := Int.fdiv (m + 9) 12 * (-12) + m + 9
  let doy : Int := Int.fdiv (153 * mp + 2) 5 + d - 1
  let doe : Int := yoe * 365 + Int.fdiv yoe 4 - Int.fdiv yoe 100 + doy
  era * 146097 + doe - 719468

/-- The UTC millisecond timestamp of midnight of the civil date `(y, m, d)`:
the value of `new Date("YYYY-MM-DDT00:00:00.000Z")`. -/
def epochMs (y m d : Int) : Int :=
  86400000 * daysFromCivil y m d

/-! ## JavaScript string primitives

The string methods the source uses (`split(',')`, `trim`, `toLowerCase`,
`toUpperCase`, `endsWith`, default string comparison), embedded on the
character data.  The repository's data and parameters are ASCII, where these
agree with the JS methods. -/

/-- The whitespace skipped by `trim` and `parseInt` (ASCII fragment). -/
def jsWhitespace (c : Char) : Bool :=
  c == ' ' || c == '\t' || c == '\n' || c == '\r' || c == '\x0b' || c == '\x0c'

/-- `String.prototype.toLowerCase` on an ASCII character. -/
def lowerChar (c : Char) : Char :=
  if 'A' ≤ c ∧ c ≤ 'Z' then Char.ofNat (c.toNat + 32) else c

/-- `String.prototype.toUpperCase` on an ASCII character. -/
def upperChar (c : Char) : Char :=
  if 'a' ≤ c ∧ c ≤ 'z' then Char.ofNat (c.toNat - 32) else c

/-- `s.toLowerCase()`. -/
def jsToLower (s : String) : String := String.mk (s.toList.map lowerChar)

/-- `s.toUpperCase()`. -/
def jsToUpper (s : String) : String := String.mk (s.toList.map upperChar)

/-- `s.trim()`: strip leading and trailing whitespace. -/
def jsTrim (s : String) : String :=
  String.mk (((s.toList.dropWhile jsWhitespace).reverse.dropWhile jsWhitespace).reverse)

/-- The splitting loop of `s.split(',')`: `acc` is the current entry,
reversed. -/
def splitCommaAux : List Char → List Char → List String
  | [], acc => [String.mk acc.reverse]
  | c :: rest, acc =>
    if c = ',' then String.mk acc.reverse :: splitCommaAux rest []
    else splitCommaAux rest (c :: acc)

/-- `s.split(',')`: every borderline case of JS is preserved
(`"" ↦ [""]`, `"a,," ↦ ["a", "", ""]`). -/
def jsSplitComma (s : String) : List String :=
  splitCommaAux s.toList []

/-- Whether the second char list is a prefix of the first. -/
def startsWithChars : List Char → List Char → Bool
  | _, [] => true
  | [], _ :: _ => false
  | c :: cs, p :: ps => c = p && startsWithChars cs ps

/-- `s.endsWith(suf)`. -/
def jsEndsWith (s suf : String) : Bool :=
  startsWithChars s.toList.reverse suf.toList.reverse

/-- Lexicographic comparison of char lists by code point — the comparison
JS applies to `String(x)` values in the default `Array.prototype.sort`. -/
def lexLeChars : List Char → List Char → Bool
  | [], _ => true
  | _ :: _, [] => false
  | a :: as, b :: bs => if a = b then lexLeChars as bs else decide (a < b)

/-! ## `parseDate` (src/lib/filters.js) -/

/-- Error taxonomy of the spec; each constructor carries the exact
message string thrown by the corresponding source `throw` site. -/
inductive ApiError where
  | invalidDate (msg : String)
  | invalidRange (msg : String)
  | invalidType (msg : String)
  | invalidState (msg : String)
  | invalidField (msg : String)
  | invalidYear (msg : String)
  | dataUnavailable (msg : String)
deriving Repr, DecidableEq

/-- Numeric value of a decimal digit character. -/
def digitVal (c : Char) : Nat := c.toNat - '0'.toNat

/-- The strict `YYYY-MM-DD` shape test of the source regex
`/^\d{4}-\d{2}-\d{2}$/` together with the component extraction that
`dateStr.split('-').map(Number)` performs on a matching string:
on a match, the year, month and day are the fixed-width digit groups. -/
def ymdOf (s : String) : Option (Nat × Nat × Nat) :=
  match s.toList with
  | [y1, y2, y3, y4, '-', m1, m2, '-', d1, d2] =>
    if ([y1, y2, y3, y4, m1, m2, d1, d2].all Char.isDigit) then
      some (((digitVal y1 * 10 + digitVal y2) * 10 + digitVal y3) * 10 + digitVal y4,
            digitVal m1 * 10 + digitVal m2,
            digitVal d1 * 10 + digitVal d2)
    else none
  | _ => none

/-- The leap-year test of the source:
`year % 4 === 0 && (year % 100 !== 0 || year % 400 === 0)`. -/
def jsLeap (y : Nat) : Bool :=
  y % 4 == 0 && (y % 100 != 0 || y % 400 == 0)

/-- The source's per-month day counts
`[31, leap ? 29 : 28, 31, 30, 31, 30, 31, 31, 30, 31, 30, 31]`,
indexed with `month - 1` as in `daysInMonth[month - 1]`. -/
def daysInMonth (y : Nat) : List Nat :=
  [31, if jsLeap y then 29 else 28, 31, 30, 31, 30, 31, 31, 30, 31, 30, 31]

/-- `parseDate` of src/lib/filters.js: strict `YYYY-MM-DD` syntax, then range
checks on month and day (with the leap-year February rule), then the UTC
midnight timestamp of the date.  The source's final `isNaN(date.getTime())`
guard is dead code for range-checked 4-digit-year dates and has no branch
here. -/
def parseDate (dateStr : String) : Except ApiError Int :=
  if dateStr = "" then
    .error (.invalidDate "Date must be a non-empty string")
  else
    match ymdOf dateStr with
    | none => .error (.invalidDate "Date must be in YYYY-MM-DD format")
    | some (year, month, day) =>
      if month < 1 ∨ 12 < month then
        .error (.invalidDate "Invalid date")
      else if day < 1 ∨ (daysInMonth year).getD (month - 1) 0 < day then
        .error (.invalidDate "Invalid date")
      else
        .ok (epochMs year month day)

/-! ## Holiday records -/

/-- A holiday record.  `startMs`/`endMs` are the `Date` timestamps of the
stored ISO strings `start`/`end` (the code always compares them through
`new Date(...)`). -/
structure Holiday where
  startMs : Int
  endMs : Int
  year : Int
  stateCode : String
  name : String
  slug : String
deriving Repr, DecidableEq

/-! ## Date-range filter (src/lib/filters.js) -/

/-- `isInDateRange`: the overlap test
`holidayStart <= toDate && holidayEnd >= fromDate`. -/
def isInDateRange (holiday : Holiday) (fromDate toDate : Int) : Bool :=
  holiday.startMs ≤ toDate && holiday.endMs ≥ fromDate

/-- `filterByDateRange` of src/lib/filters.js.  An absent (or empty, which is
falsy in JS) query parameter is `none`.  The defaults are the timestamps of
`new Date('1900-01-01')` and `new Date('2100-12-31')`. -/
def filterByDateRange (holidays : List Holiday) (fromStr toStr : Option String) :
    Except ApiError (List Holiday) :=
  match fromStr, toStr with
  | none, none => .ok holidays
  | _, _ => do
    let fromDate ← match fromStr with
      | some f => parseDate f
      | none => pure (epochMs 1900 1 1)
    let toDate ← match toStr with
      | some t => parseDate t
      | none => pure (epochMs 2100 12 31)
    if fromDate > toDate then
      .error (.invalidRange "From date must be before or equal to to date")
    else
      .ok (holidays.filter (fun holiday => isInDateRange holiday fromDate toDate))

/-! ## Type and state filters (src/lib/filters.js) -/

/-- `Array.prototype.join(', ')`. -/
def joinComma : List String → String
  | [] => ""
  | [s] => s
  | s :: rest => s ++ ", " ++ joinComma rest

/-- The fixed 7-element holiday-type vocabulary of the source. -/
def validTypes : List String :=
  ["winterferien", "osterferien", "pfingstferien", "sommerferien",
   "herbstferien", "weihnachtsferien", "fruehjahrsferien"]

/-- The fixed 16-element state-code vocabulary of the source. -/
def validStates : List String :=
  ["BW", "BY", "BE", "BB", "HB", "HH", "HE", "MV", "NI", "NW", "RP", "SL",
   "SN", "ST", "SH", "TH"]

/-- `filterByTypes` of src/lib/filters.js.  A falsy (empty) `typesStr` returns
the input unchanged; otherwise the comma-separated entries are trimmed and
lower-cased, all entries outside `validTypes` are reported in one error, and
on success a record is kept when its lower-cased `name` is among the
entries. -/
def filterByTypes (holidays : List Holiday) (typesStr : String) :
    Except ApiError (List Holiday) :=
  if typesStr = "" then .ok holidays
  else
    let types := (jsSplitComma typesStr).map (fun t => jsToLower (jsTrim t))
    let invalidTypes := types.filter (fun t => !(validTypes.contains t))
    if invalidTypes ≠ [] then
      .error (.invalidType ("Invalid holiday types: " ++ joinComma invalidTypes ++
        ". Valid types are: " ++ joinComma validTypes))
    else
      .ok (holidays.filter (fun holiday => types.contains (jsToLower holiday.name)))

/-- `filterByStates` of src/lib/filters.js.  Entries are trimmed and
upper-cased; the record's own `stateCode` is compared as stored. -/
def filterByStates (holidays : List Holiday) (statesStr : String) :
    Except ApiError (List Holiday) :=
  if statesStr = "" then .ok holidays
  else
    let states := (jsSplitComma statesStr).map (fun s => jsToUpper (jsTrim s))
    let invalidStates := states.filter (fun s => !(validStates.contains s))
    if invalidStates ≠ [] then
      .error (.invalidState ("Invalid state codes: " ++ joinComma invalidStates ++
        ". Valid codes are: " ++ joinComma validStates))
    else
      .ok (holidays.filter (fun holiday => states.contains holiday.stateCode))

/-! ## Field selection (src/lib/filters.js)

`selectFields` reads record fields dynamically (`hasOwnProperty` /
`holiday[field]`), so here records are JS objects: association lists in
key-insertion order, the order JS objects keep for string keys. -/

/-- A JS value stored in a record field. -/
inductive JsVal where
  | str (v : String)
  | num (v : Int)
deriving Repr, DecidableEq

/-- A JS object: fields in key-insertion order. -/
abbrev JsObj := List (String × JsVal)

/-- `obj.hasOwnProperty(k)`. -/
def objHas (o : JsObj) (k : String) : Bool :=
  o.any (fun p => p.1 == k)

/-- `obj[k]` for a present key (the source only reads present keys). -/
def objGet (o : JsObj) (k : String) : JsVal :=
  ((o.find? (fun p => p.1 == k)).map (fun p => p.2)).getD (.str "")

/-- `obj[k] = v`: overwrite in place when the key exists (keeping its
position), append otherwise — JS object key semantics. -/
def objSet (o : JsObj) (k : String) (v : JsVal) : JsObj :=
  if objHas o k then o.map (fun p => if p.1 == k then (k, v) else p)
  else o ++ [(k, v)]

/-- The fixed 6-element field vocabulary of the source. -/
def validFields : List String :=
  ["start", "end", "year", "stateCode", "name", "slug"]

/-- The per-record projection loop of `selectFields`: starting from `{}`,
copy each requested field that the record owns, in request order. -/
def selectOne (fields : List String) (holiday : JsObj) : JsObj :=
  fields.foldl
    (fun selected field =>
      if objHas holiday field then objSet selected field (objGet holiday field)
      else selected)
    []

/-- `selectFields` of src/lib/filters.js.  A falsy (empty) `fieldsStr` returns
the input unchanged; entries are trimmed (and not case-normalized), all
entries outside `validFields` are reported in one error, and on success each
record is projected to the requested fields in the order given. -/
def selectFields (holidays : List JsObj) (fieldsStr : String) :
    Except ApiError (List JsObj) :=
  if fieldsStr = "" then .ok holidays
  else
    let fields := (jsSplitComma fieldsStr).map (fun f => jsTrim f)
    let invalidFields := fields.filter (fun f => !(validFields.contains f))
    if invalidFields ≠ [] then
      .error (.invalidField ("Invalid fields: " ++ joinComma invalidFields ++
        ". Valid fields are: " ++ joinComma validFields))
    else
      .ok (holidays.map (selectOne fields))

/-! ## Year validation (src/routes/v2/index.js) -/

/-- Digit test for radix 10 or 16. -/
def isRadixDigit (radix : Nat) (c : Char) : Bool :=
  if radix == 16 then
    c.isDigit || ('a' ≤ c && c ≤ 'f') || ('A' ≤ c && c ≤ 'F')
  else c.isDigit

/-- Value of a digit for radix 10 or 16. -/
def radixDigitVal (c : Char) : Nat :=
  if c.isDigit then digitVal c
  else if 'a' ≤ c && c ≤ 'f' then c.toNat - 'a'.toNat + 10
  else c.toNat - 'A'.toNat + 10

/-- The final stage of `parseInt`: take the longest run of leading digits of
the given radix, `NaN` (`none`) when there is none, else the signed value. -/
def parseDigitsPart (sign : Int) (radix : Nat) (cs2 : List Char) : Option Int :=
  let digits := cs2.takeWhile (isRadixDigit radix)
  if digits = [] then none
  else some (sign * (digits.foldl (fun acc c => acc * radix + radixDigitVal c) 0 : Nat))

/-- JavaScript `parseInt(s)` with no radix argument: skip leading whitespace,
read an optional sign, detect a `0x`/`0X` prefix (radix 16, else 10), then
parse the longest run of leading digits, ignoring everything after it;
`none` is `NaN` (no digits).  `headD` with the default `' '` stands for
"no such character" (a blank matches no sign, prefix or digit test). -/
def jsParseInt (s : String) : Option Int :=
  let cs0 := s.toList.dropWhile jsWhitespace
  let sign : Int := if cs0.headD ' ' = '-' then -1 else 1
  let cs1 := if cs0.headD ' ' = '-' ∨ cs0.headD ' ' = '+' then cs0.tail else cs0
  let hex := cs1.headD ' ' = '0' ∧ (cs1.tail.headD ' ' = 'x' ∨ cs1.tail.headD ' ' = 'X')
  parseDigitsPart sign (if hex then 16 else 10) (if hex then cs1.tail.tail else cs1)

/-- `validateYear` of src/routes/v2/index.js:
`parseInt`, then reject `NaN` and values outside `[1900, 2100]`. -/
def validateYear (year : String) : Except ApiError Int :=
  match jsParseInt year with
  | none => .error (.invalidYear "Year must be a valid number between 1900 and 2100")
  | some yearNum =>
    if yearNum < 1900 ∨ yearNum > 2100 then
      .error (.invalidYear "Year must be a valid number between 1900 and 2100")
    else .ok yearNum

/-! ## The record store (src/lib/dataLoader.js)

The `DataLoader` class, embedded as explicit state passing.  The backing
directory of `{year}.json` files is a pure environment: a directory listing
for the constructor and a read function `String → Option YearData` standing
for `readFileSync` + `JSON.parse` keyed by the file's year string (`none` is
a missing or malformed file).  A `reads` counter instruments every
consultation of the backing source, successful or not. -/

/-- The parsed content of one `{year}.json` file. -/
abbrev YearData := List Holiday

/-- `this.cache.get(k)` on the assoc-list embedding of the `Map`. -/
def cacheGet (cache : List (String × YearData)) (k : String) : Option YearData :=
  ((cache.find? (fun p => p.1 == k)).map (fun p => p.2))

/-- `this.cache.set(k, v)`: overwrite an existing key in place, append a new
one — `Map` insertion-order semantics. -/
def cacheSet (cache : List (String × YearData)) (k : String) (v : YearData) :
    List (String × YearData) :=
  if cache.any (fun p => p.1 == k) then
    cache.map (fun p => if p.1 == k then (k, v) else p)
  else cache ++ [(k, v)]

/-- The mutable state of the `DataLoader` singleton, plus the `reads`
load-count instrument (number of backing-source reads attempted). -/
structure LoaderState where
  cache : List (String × YearData)
  availableYears : List Int
  reads : Nat
deriving Repr, DecidableEq

/-- `string.replace(pat, '')` for a non-empty `pat`: remove the first
occurrence, as used in `file.replace('.json', '')`. -/
def removeFirstOcc (pat : List Char) : List Char → List Char
  | [] => []
  | c :: rest =>
    if pat.isPrefixOf (c :: rest) then (c :: rest).drop pat.length
    else c :: removeFirstOcc pat rest

/-- Insert into a list sorted by the JS default comparator (lexicographic
comparison of the decimal string forms). -/
def sortInsert (x : Int) : List Int → List Int
  | [] => [x]
  | y :: rest =>
    if lexLeChars (toString x).toList (toString y).toList then x :: y :: rest
    else y :: sortInsert x rest

/-- `Array.prototype.sort()` with no comparator on a number array:
sorts by comparing `String(x)` lexicographically.  Ties are equal numbers
(decimal strings are injective), so insertion sort computes the JS result. -/
def jsDefaultSort : List Int → List Int
  | [] => []
  | x :: rest => sortInsert x (jsDefaultSort rest)

/-- `DataLoader._getAvailableYears()` applied to the directory listing:
keep `.json` files, `parseInt` the file name with its first `.json` removed,
drop `NaN`s, and sort with the default comparator. -/
def getAvailableYearsOf (files : List String) : List Int :=
  jsDefaultSort
    (((files.filter (fun f => jsEndsWith f ".json")).map
        (fun f => jsParseInt (String.mk (removeFirstOcc ".json".toList f.toList)))).filterMap id)

/-- The `DataLoader` constructor: empty cache, available years enumerated
once from the directory listing. -/
def mkDataLoader (files : List String) : LoaderState :=
  { cache := [], availableYears := getAvailableYearsOf files, reads := 0 }

/-- `DataLoader.getAvailableYears()` returns a copy of the stored list. -/
def getAvailableYears (st : LoaderState) : List Int :=
  st.availableYears

/-- `DataLoader.loadYearData(year)`: answer from the cache when the year
string is present; otherwise consult the backing source (counted by `reads`),
cache and return the data on success, and throw — caching nothing — when the
read or parse fails. -/
def loadYearData (fsRead : String → Option YearData) (st : LoaderState)
    (year : Int) : Except ApiError YearData × LoaderState :=
  let yearStr := toString year
  match cacheGet st.cache yearStr with
  | some data => (.ok data, st)
  | none =>
    match fsRead yearStr with
    | some data =>
      (.ok data, { st with cache := cacheSet st.cache yearStr data, reads := st.reads + 1 })
    | none =>
      (.error (.dataUnavailable ("Data for year " ++ toString year ++ " not found or invalid")),
       { st with reads := st.reads + 1 })

/-! ## The statistics calculator (src/routes/v2/index.js, `GET /stats/:year`) -/

/-- The per-record duration of the stats handler:
`Math.ceil((end - start) / (24 * 60 * 60 * 1000)) + 1`. -/
def statDuration (holiday : Holiday) : Int :=
  ⌈((holiday.endMs - holiday.startMs : Int) : ℚ) / (24 * 60 * 60 * 1000)⌉ + 1

/-- `counter[k] = (counter[k] || 0) + 1` on a JS-object counter. -/
def bumpCount (counter : List (String × Nat)) (k : String) : List (String × Nat) :=
  if counter.any (fun p => p.1 == k) then
    counter.map (fun p => if p.1 == k then (p.1, p.2 + 1) else p)
  else counter ++ [(k, 1)]

/-- `duration < minDays` where `minDays` starts as `Infinity` (`none`). -/
def ltMinDays (d : Int) : Option Int → Bool
  | none => true
  | some m => d < m

/-- The running state of the `holidays.forEach` loop of the stats handler. -/
structure StatState where
  byState : List (String × Nat)
  byType : List (String × Nat)
  totalDays : Int
  maxDays : Int
  minDays : Option Int
  longest : Option (Holiday × Int)
  shortest : Option (Holiday × Int)
deriving Repr, DecidableEq

/-- One iteration of the stats `forEach` body. -/
def statStep (st : StatState) (holiday : Holiday) : StatState :=
  let duration := statDuration holiday
  { byState := bumpCount st.byState holiday.stateCode
    byType := bumpCount st.byType holiday.name
    totalDays := st.totalDays + duration
    maxDays := if duration > st.maxDays then duration else st.maxDays
    longest := if duration > st.maxDays then some (holiday, duration) else st.longest
    minDays := if ltMinDays duration st.minDays then some duration else st.minDays
    shortest := if ltMinDays duration st.minDays then some (holiday, duration) else st.shortest }

/-- The stats `forEach` loop. -/
def statFold (st : StatState) : List Holiday → StatState
  | [] => st
  | holiday :: rest => statFold (statStep st holiday) rest

/-- The initial loop state: empty counters, `totalDays = 0`, `maxDays = 0`,
`minDays = Infinity`, no extremal records. -/
def statInit : StatState :=
  { byState := [], byType := [], totalDays := 0, maxDays := 0, minDays := none,
    longest := none, shortest := none }

/-- `Math.round` for the non-negative values arising here
(round half toward positive infinity). -/
def jsRound (q : ℚ) : Int := ⌊q + 1 / 2⌋

/-- The response object of `GET /stats/:year`.  The longest/shortest records
are the source's `{...holiday, duration}` spreads, embedded as pairs. -/
structure StatsResult where
  year : Int
  totalHolidays : Nat
  byState : List (String × Nat)
  byType : List (String × Nat)
  averageDuration : ℚ
  longestHoliday : Option (Holiday × Int)
  shortestHoliday : Option (Holiday × Int)
deriving Repr, DecidableEq

/-- The whole stats computation of the handler over the loaded year data:
the `forEach` loop followed by
`averageDuration = Math.round((totalDays / holidays.length) * 100) / 100`.
(For an empty collection the JS average is `NaN`; this embedding yields `0`
there, and the theorems only concern non-empty collections.) -/
def computeStats (year : Int) (holidays : List Holiday) : StatsResult :=
  let fin := statFold statInit holidays
  { year := year
    totalHolidays := holidays.length
    byState := fin.byState
    byType := fin.byType
    averageDuration := (jsRound (((fin.totalDays : ℚ) / (holidays.length : ℚ)) * 100) : ℚ) / 100
    longestHoliday := fin.longest
    shortestHoliday := fin.shortest }

/-! ## C1: overlap semantics of the date-range filter -/

theorem exceptOkBind {α β : Type} (a : α) (f : α → Except ApiError β) :
    (Except.ok a >>= f : Except ApiError β) = f a := rfl

theorem exceptPureBind {α β : Type} (a : α) (f : α → Except ApiError β) :
    ((pure a : Except ApiError α) >>= f) = f a := rfl

/-- C1: for every record list and every pair of valid dates with `from ≤ to`,
`filterByDateRange` succeeds and keeps exactly the records whose inclusive
interval overlaps the query range: a record is kept iff
`record.start ≤ to` and `record.end ≥ from`.  An absent `from` (resp. `to`)
defaults to 1900-01-01 (resp. 2100-12-31), a bound below (resp. above) every
record of the intended domain, so for such records only the present bound
filters; when both are absent the input list is returned unchanged. -/
theorem filterByDateRange_overlap (hs : List Holiday) (fromStr toStr : String)
    (fromMs toMs : Int)
    (hf : parseDate fromStr = .ok fromMs) (ht : parseDate toStr = .ok toMs)
    (hle : fromMs ≤ toMs) :
    (∃ res, filterByDateRange hs (some fromStr) (some toStr) = .ok res ∧
      ∀ h, h ∈ res ↔ h ∈ hs ∧ (h.startMs ≤ toMs ∧ fromMs ≤ h.endMs)) ∧
    (epochMs 1900 1 1 ≤ toMs →
      ∃ res, filterByDateRange hs none (some toStr) = .ok res ∧
        ∀ h ∈ hs, epochMs 1900 1 1 ≤ h.endMs → (h ∈ res ↔ h.startMs ≤ toMs)) ∧
    (fromMs ≤ epochMs 2100 12 31 →
      ∃ res, filterByDateRange hs (some fromStr) none = .ok res ∧
        ∀ h ∈ hs, h.startMs ≤ epochMs 2100 12 31 → (h ∈ res ↔ fromMs ≤ h.endMs)) ∧
    filterByDateRange hs none none = .ok hs := by
  refine ⟨?_, ?_, ?_, rfl⟩
  · refine ⟨hs.filter (fun h => isInDateRange h fromMs toMs), ?_, ?_⟩
    · simp only [filterByDateRange, hf, ht, exceptOkBind]
      rw [if_neg (by omega)]
    · intro h
      simp [List.mem_filter, isInDateRange, and_assoc]
  · intro hbound
    refine ⟨hs.filter (fun h => isInDateRange h (epochMs 1900 1 1) toMs), ?_, ?_⟩
    · simp only [filterByDateRange, ht, exceptOkBind, exceptPureBind]
      rw [if_neg (by omega)]
    · intro h hmem hrec
      simp only [List.mem_filter, isInDateRange, Bool.and_eq_true, decide_eq_true_eq,
        ge_iff_le, hmem, true_and]
      constructor
      · exact fun hx => hx.1
      · exact fun hx => ⟨hx, hrec⟩
  · intro hbound
    refine ⟨hs.filter (fun h => isInDateRange h fromMs (epochMs 2100 12 31)), ?_, ?_⟩
    · simp only [filterByDateRange, hf, exceptOkBind, exceptPureBind]
      rw [if_neg (by omega)]
    · intro h hmem hrec
      simp only [List.mem_filter, isInDateRange, Bool.and_eq_true, decide_eq_true_eq,
        ge_iff_le, hmem, true_and]
      constructor
      · exact fun hx => hx.2
      · exact fun hx => ⟨hrec, hx⟩

/-- Witness for C1 at a concrete input: the summer-holiday record of the
spec's scenario 1 overlaps the August 2024 query range. -/
theorem filterByDateRange_overlap_witness :
    ∃ res,
      filterByDateRange
        [{ startMs := 1721865600000, endMs := 1725753600000, year := 2024,
           stateCode := "BY", name := "sommerferien",
           slug := "sommerferien-2024-BY" }]
        (some "2024-08-01") (some "2024-08-31") = .ok res ∧
      ∀ h, h ∈ res ↔
        h ∈ [({ startMs := 1721865600000, endMs := 1725753600000, year := 2024,
                stateCode := "BY", name := "sommerferien",
                slug := "sommerferien-2024-BY" } : Holiday)] ∧
        (h.startMs ≤ 1725062400000 ∧ 1722470400000 ≤ h.endMs) :=
  (filterByDateRange_overlap _ "2024-08-01" "2024-08-31" 1722470400000 1725062400000
    (by rfl) (by rfl) (by decide)).1

/-! ## C3: the shared date parser accepts exactly the real calendar dates -/

/-- Month lengths in the spec's words: day within the month's length, with
February 29 exactly in leap years (year divisible by 4 and not by 100 unless
by 400). -/
def specMonthLength (y m : Nat) : Nat :=
  if m = 2 then (if 4 ∣ y ∧ (¬ (100 ∣ y) ∨ 400 ∣ y) then 29 else 28)
  else if m ∈ ([1, 3, 5, 7, 8, 10, 12] : List Nat) then 31
  else if m ∈ ([4, 6, 9, 11] : List Nat) then 30
  else 0

/-- The spec's notion of an acceptable date string: strict `YYYY-MM-DD`
syntax denoting a real calendar date. -/
def isRealDate (s : String) : Prop :=
  match ymdOf s with
  | some (y, m, d) => 1 ≤ m ∧ m ≤ 12 ∧ 1 ≤ d ∧ d ≤ specMonthLength y m
  | none => False

theorem jsLeap_iff (y : Nat) :
    jsLeap y = true ↔ (4 ∣ y ∧ (¬ (100 ∣ y) ∨ 400 ∣ y)) := by
  simp [jsLeap, Nat.dvd_iff_mod_eq_zero]

theorem daysInMonth_getD_eq (y m : Nat) (h1 : 1 ≤ m) (h2 : m ≤ 12) :
    (daysInMonth y).getD (m - 1) 0 = specMonthLength y m := by
  interval_cases m <;>
    simp only [daysInMonth, specMonthLength, List.getD, List.get?, specMonthLength] <;>
    first
      | rfl
      | (by_cases hy : (4 ∣ y ∧ (¬ (100 ∣ y) ∨ 400 ∣ y)) <;>
          simp [hy, (jsLeap_iff y).symm, jsLeap_iff])

/-- C3: `parseDate` — the parser shared by `filterByDateRange` and
`findHolidaysOnDate` — accepts a string exactly when it is a strict
`YYYY-MM-DD` string denoting a real calendar date (month in 1..12, day within
the month's length, February 29 exactly in leap years), and every other
string is rejected with an `InvalidDate` error. -/
theorem parseDate_accepts_iff (s : String) :
    ((∃ ms, parseDate s = .ok ms) ↔ isRealDate s) ∧
    ((∃ ms, parseDate s = .ok ms) ∨ (∃ msg, parseDate s = .error (.invalidDate msg))) := by
  by_cases hs : s = ""
  · have hym : ymdOf s = none := by rw [hs]; rfl
    refine ⟨?_, Or.inr ⟨_, by rw [parseDate, if_pos hs]⟩⟩
    simp [parseDate, if_pos hs, isRealDate, hym]
  · cases hym : ymdOf s with
    | none =>
      have hpd : parseDate s = .error (.invalidDate "Date must be in YYYY-MM-DD format") := by
        rw [parseDate, if_neg hs, hym]
      refine ⟨?_, Or.inr ⟨_, hpd⟩⟩
      simp [hpd, isRealDate, hym]
    | some t =>
      obtain ⟨y, m, d⟩ := t
      have hpd : parseDate s =
          (if m < 1 ∨ 12 < m then Except.error (.invalidDate "Invalid date")
           else if d < 1 ∨ (daysInMonth y).getD (m - 1) 0 < d then
             Except.error (.invalidDate "Invalid date")
           else .ok (epochMs y m d)) := by
        rw [parseDate, if_neg hs, hym]
      have hreal : isRealDate s = (1 ≤ m ∧ m ≤ 12 ∧ 1 ≤ d ∧ d ≤ specMonthLength y m) := by
        simp [isRealDate, hym]
      rw [hpd, hreal]
      by_cases h1 : m < 1 ∨ 12 < m
      · rw [if_pos h1]
        refine ⟨?_, Or.inr ⟨_, rfl⟩⟩
        constructor
        · rintro ⟨ms, hms⟩; exact absurd hms (by simp)
        · intro hx; omega
      · rw [if_neg h1]
        have hm1 : 1 ≤ m := by omega
        have hm2 : m ≤ 12 := by omega
        have hlen := daysInMonth_getD_eq y m hm1 hm2
        by_cases h2 : d < 1 ∨ (daysInMonth y).getD (m - 1) 0 < d
        · rw [if_pos h2]
          refine ⟨?_, Or.inr ⟨_, rfl⟩⟩
          constructor
          · rintro ⟨ms, hms⟩; exact absurd hms (by simp)
          · intro hx; omega
        · rw [if_neg h2]
          refine ⟨?_, Or.inl ⟨_, rfl⟩⟩
          constructor
          · intro _; omega
          · intro _; exact ⟨_, rfl⟩

/-! ## C2: vocabulary closure of the three typed validation errors -/

/-- The offending type entries of a comma-separated parameter: the trimmed,
lower-cased entries outside the 7-type vocabulary (an absent/empty parameter
has no entries). -/
def typeOffenders (typesStr : String) : List String :=
  if typesStr = "" then []
  else ((jsSplitComma typesStr).map (fun t => jsToLower (jsTrim t))).filter
    (fun t => !(validTypes.contains t))

/-- The offending state entries: trimmed, upper-cased entries outside the
16-code vocabulary. -/
def stateOffenders (statesStr : String) : List String :=
  if statesStr = "" then []
  else ((jsSplitComma statesStr).map (fun s => jsToUpper (jsTrim s))).filter
    (fun s => !(validStates.contains s))

/-- The offending field entries: trimmed (not case-normalized) entries
outside the 6-field vocabulary. -/
def fieldOffenders (fieldsStr : String) : List String :=
  if fieldsStr = "" then []
  else ((jsSplitComma fieldsStr).map (fun f => jsTrim f)).filter
    (fun f => !(validFields.contains f))

/-- The `InvalidType` message of the source. -/
def typesErrMsg (invalid : List String) : String :=
  "Invalid holiday types: " ++ joinComma invalid ++ ". Valid types are: " ++
    joinComma validTypes

/-- The `InvalidState` message of the source. -/
def statesErrMsg (invalid : List String) : String :=
  "Invalid state codes: " ++ joinComma invalid ++ ". Valid codes are: " ++
    joinComma validStates

/-- The `InvalidField` message of the source. -/
def fieldsErrMsg (invalid : List String) : String :=
  "Invalid fields: " ++ joinComma invalid ++ ". Valid fields are: " ++
    joinComma validFields

theorem mem_joinComma_inside (x : String) (l : List String) (hx : x ∈ l) :
    x.toList <:+: (joinComma l).toList := by
  induction l with
  | nil => cases hx
  | cons s rest ih =>
    cases rest with
    | nil =>
      rcases List.mem_singleton.mp hx with rfl
      exact List.infix_rfl
    | cons r rest' =>
      have hj : joinComma (s :: r :: rest') = s ++ ", " ++ joinComma (r :: rest') := rfl
      rw [hj]
      rcases List.mem_cons.mp hx with rfl | hx'
      · have : x.toList <+: (x ++ ", " ++ joinComma (r :: rest')).toList := by
          simp [String.toList]
        exact this.isInfix
      · have h1 : x.toList <:+: (joinComma (r :: rest')).toList := ih hx'
        have h2 : (joinComma (r :: rest')).toList <:+:
            (s ++ ", " ++ joinComma (r :: rest')).toList := by
          have : (s ++ ", " ++ joinComma (r :: rest')).toList =
              (s ++ ", ").toList ++ (joinComma (r :: rest')).toList ++ [] := by
            simp [String.toList]
          rw [this]
          exact List.infix_append _ _ _
        exact h1.trans h2

/-- C2 (amended): `filterByTypes`, `filterByStates` and `selectFields` raise
their typed error (`InvalidType` / `InvalidState` / `InvalidField`) exactly
when at least one processed entry of the comma-separated parameter lies
outside their fixed vocabulary — entries being trimmed and lower-cased for
types, trimmed and upper-cased for states, and only trimmed (matched
case-sensitively) for fields — and the raised message enumerates every
offending entry; when every entry is in the vocabulary no error is raised. -/
theorem vocabularyClosure (hs : List Holiday) (os : List JsObj) (csv : String) :
    (typeOffenders csv = [] → ∃ l, filterByTypes hs csv = .ok l) ∧
    (typeOffenders csv ≠ [] →
      filterByTypes hs csv = .error (.invalidType (typesErrMsg (typeOffenders csv)))) ∧
    (∀ o ∈ typeOffenders csv, o.toList <:+: (typesErrMsg (typeOffenders csv)).toList) ∧
    (stateOffenders csv = [] → ∃ l, filterByStates hs csv = .ok l) ∧
    (stateOffenders csv ≠ [] →
      filterByStates hs csv = .error (.invalidState (statesErrMsg (stateOffenders csv)))) ∧
    (∀ o ∈ stateOffenders csv, o.toList <:+: (statesErrMsg (stateOffenders csv)).toList) ∧
    (fieldOffenders csv = [] → ∃ l, selectFields os csv = .ok l) ∧
    (fieldOffenders csv ≠ [] →
      selectFields os csv = .error (.invalidField (fieldsErrMsg (fieldOffenders csv)))) ∧
    (∀ o ∈ fieldOffenders csv, o.toList <:+: (fieldsErrMsg (fieldOffenders csv)).toList) := by
  refine ⟨?_, ?_, ?_, ?_, ?_, ?_, ?_, ?_, ?_⟩
  · intro hcond
    by_cases hempty : csv = "" <;>
      simp_all [filterByTypes, typeOffenders]
  · intro hcond
    by_cases hempty : csv = "" <;>
      simp_all [filterByTypes, typeOffenders, typesErrMsg]
  · intro o ho
    refine (mem_joinComma_inside o _ ho).trans ?_
    have h := List.infix_append "Invalid holiday types: ".toList
      (joinComma (typeOffenders csv)).toList
      (". Valid types are: " ++ joinComma validTypes).toList
    simpa [typesErrMsg, String.toList] using h
  · intro hcond
    by_cases hempty : csv = "" <;>
      simp_all [filterByStates, stateOffenders]
  · intro hcond
    by_cases hempty : csv = "" <;>
      simp_all [filterByStates, stateOffenders, statesErrMsg]
  · intro o ho
    refine (mem_joinComma_inside o _ ho).trans ?_
    have h := List.infix_append "Invalid state codes: ".toList
      (joinComma (stateOffenders csv)).toList
      (". Valid codes are: " ++ joinComma validStates).toList
    simpa [statesErrMsg, String.toList] using h
  · intro hcond
    by_cases hempty : csv = "" <;>
      simp_all [selectFields, fieldOffenders]
  · intro hcond
    by_cases hempty : csv = "" <;>
      simp_all [selectFields, fieldOffenders, fieldsErrMsg]
  · intro o ho
    refine (mem_joinComma_inside o _ ho).trans ?_
    have h := List.infix_append "Invalid fields: ".toList
      (joinComma (fieldOffenders csv)).toList
      (". Valid fields are: " ++ joinComma validFields).toList
    simpa [fieldsErrMsg, String.toList] using h

/-- Counterexample to C2 as stated: `selectFields` raises `InvalidField` for
the parameter `"Name"` even though its trimmed, case-normalized form `"name"`
is inside the 6-field vocabulary — field entries are matched
case-sensitively. -/
theorem vocabularyClosure_cex :
    (∃ msg, selectFields [] "Name" = .error (.invalidField msg)) ∧
    validFields.contains (jsToLower (jsTrim "Name")) = true :=
  ⟨⟨_, rfl⟩, rfl⟩

/-- Witness for C2 at concrete inputs: each of the three filters errors on an
out-of-vocabulary entry, and an in-vocabulary (type) entry raises nothing. -/
theorem vocabularyClosure_witness :
    filterByTypes [] "invalidferien" =
      .error (.invalidType (typesErrMsg (typeOffenders "invalidferien"))) ∧
    filterByStates [] "yy" =
      .error (.invalidState (statesErrMsg (stateOffenders "yy"))) ∧
    selectFields [] "bogus" =
      .error (.invalidField (fieldsErrMsg (fieldOffenders "bogus"))) ∧
    (∃ l, filterByTypes [] " SOMMERFERIEN " = .ok l) :=
  ⟨(vocabularyClosure [] [] "invalidferien").2.1 (by decide),
   (vocabularyClosure [] [] "yy").2.2.2.2.1 (by decide),
   (vocabularyClosure [] [] "bogus").2.2.2.2.2.2.2.1 (by decide),
   (vocabularyClosure [] [] " SOMMERFERIEN ").1 (by decide)⟩

/-! ## C4: matching semantics of the type and state filters -/

/-- C4 (amended): on a valid parameter, `filterByTypes` keeps exactly the
records whose `name` case-insensitively equals some trimmed entry (both sides
are lower-cased), while `filterByStates` keeps exactly the records whose
stored `stateCode` equals, case-sensitively, some trimmed upper-cased entry —
the match is case-insensitive in the supplied entry but not in the record's
own `stateCode` field. -/
theorem typeStateFilterMatch (hs : List Holiday) (csv : String) (hne : csv ≠ "")
    (l : List Holiday) :
    (filterByTypes hs csv = .ok l →
      ∀ h, h ∈ l ↔ h ∈ hs ∧
        ∃ raw ∈ jsSplitComma csv, jsToLower h.name = jsToLower (jsTrim raw)) ∧
    (filterByStates hs csv = .ok l →
      ∀ h, h ∈ l ↔ h ∈ hs ∧
        ∃ raw ∈ jsSplitComma csv, h.stateCode = jsToUpper (jsTrim raw)) := by
  constructor
  · intro hok h
    rw [filterByTypes, if_neg hne] at hok
    dsimp only [] at hok
    split at hok
    · cases hok
    · injection hok with hok
      subst hok
      simp only [List.mem_filter, List.contains, List.elem_iff, List.mem_map]
      constructor
      · rintro ⟨hmem, raw, hraw, heq⟩
        exact ⟨hmem, raw, hraw, heq.symm⟩
      · rintro ⟨hmem, raw, hraw, heq⟩
        exact ⟨hmem, raw, hraw, heq.symm⟩
  · intro hok h
    rw [filterByStates, if_neg hne] at hok
    dsimp only [] at hok
    split at hok
    · cases hok
    · injection hok with hok
      subst hok
      simp only [List.mem_filter, List.contains, List.elem_iff, List.mem_map]
      constructor
      · rintro ⟨hmem, raw, hraw, heq⟩
        exact ⟨hmem, raw, hraw, heq.symm⟩
      · rintro ⟨hmem, raw, hraw, heq⟩
        exact ⟨hmem, raw, hraw, heq.symm⟩

/-- The sample record of the spec scenarios, with upper-case `stateCode`. -/
def sampleBY : Holiday :=
  { startMs := 1721865600000, endMs := 1725753600000, year := 2024,
    stateCode := "BY", name := "sommerferien", slug := "sommerferien-2024-BY" }

/-- The same record with its `stateCode` stored in lower case. -/
def sampleLowerBy : Holiday :=
  { startMs := 1721865600000, endMs := 1725753600000, year := 2024,
    stateCode := "by", name := "sommerferien", slug := "sommerferien-2024-by" }

/-- Counterexample to C4 as stated: a record whose `stateCode` is stored in
lower case (`"by"`) is dropped by `filterByStates` for the parameter `"by"`,
although record field and entry are case-insensitively equal — the record's
own field is not case-normalized before comparison. -/
theorem typeStateFilterMatch_cex :
    filterByStates [sampleLowerBy] "by" = .ok [] ∧
    jsToLower sampleLowerBy.stateCode = jsToLower (jsTrim "by") :=
  ⟨rfl, rfl⟩

/-- Witness for C4 at a concrete input: the upper-cased parameter
`"SOMMERFERIEN"` matches the lower-case record name, and the parameter
`" by "` matches the record whose stored `stateCode` is `"BY"`. -/
theorem typeStateFilterMatch_witness :
    (sampleBY ∈ ([sampleBY] : List Holiday) ↔ sampleBY ∈ [sampleBY] ∧
      ∃ raw ∈ jsSplitComma "SOMMERFERIEN",
        jsToLower sampleBY.name = jsToLower (jsTrim raw)) ∧
    (sampleBY ∈ ([sampleBY] : List Holiday) ↔ sampleBY ∈ [sampleBY] ∧
      ∃ raw ∈ jsSplitComma " by ",
        sampleBY.stateCode = jsToUpper (jsTrim raw)) :=
  ⟨((typeStateFilterMatch [sampleBY] "SOMMERFERIEN" (by decide) [sampleBY]).1 rfl) sampleBY,
   ((typeStateFilterMatch [sampleBY] " by " (by decide) [sampleBY]).2 rfl) sampleBY⟩

/-! ## C5: the shared year-validation rule -/

/-- The value of a run of decimal digits. -/
def decDigitsVal (ds : List Char) : Int :=
  (ds.foldl (fun acc c => acc * 10 + digitVal c) 0 : Nat)

/-- The claim's notion of "parses as an integer": the whole string is an
optional sign followed by one or more decimal digits. -/
def strictIntOf (s : String) : Option Int :=
  match s.toList with
  | [] => none
  | c :: rest =>
    if c = '-' then
      if rest ≠ [] ∧ rest.all Char.isDigit then some (-(decDigitsVal rest)) else none
    else if c = '+' then
      if rest ≠ [] ∧ rest.all Char.isDigit then some (decDigitsVal rest) else none
    else if (c :: rest).all Char.isDigit then some (decDigitsVal (c :: rest)) else none

theorem digit_not_ws (c : Char) (h : c.isDigit = true) : jsWhitespace c = false := by
  simp only [jsWhitespace, Bool.or_eq_false_iff, beq_eq_false_iff_ne, ne_eq]
  refine ⟨⟨⟨⟨⟨?_, ?_⟩, ?_⟩, ?_⟩, ?_⟩, ?_⟩ <;> rintro rfl <;> exact absurd h (by decide)

theorem digit_not_x (c : Char) (h : c.isDigit = true) :
    ¬ (c = 'x' ∨ c = 'X') := by
  rintro (rfl | rfl) <;> exact absurd h (by decide)

theorem digit_not_sign (c : Char) (h : c.isDigit = true) :
    c ≠ '-' ∧ c ≠ '+' := by
  constructor <;> rintro rfl <;> exact absurd h (by decide)

theorem takeWhile_digits (ds : List Char) (h : ds.all Char.isDigit = true) :
    ds.takeWhile (isRadixDigit 10) = ds := by
  induction ds with
  | nil => rfl
  | cons c rest ih =>
    simp only [List.all_cons, Bool.and_eq_true] at h
    simp [List.takeWhile_cons, isRadixDigit, h.1, ih h.2]

theorem foldl_digits (ds : List Char) (h : ds.all Char.isDigit = true) (acc : Nat) :
    ds.foldl (fun acc c => acc * 10 + radixDigitVal c) acc =
      ds.foldl (fun acc c => acc * 10 + digitVal c) acc := by
  induction ds generalizing acc with
  | nil => rfl
  | cons c rest ih =>
    simp only [List.all_cons, Bool.and_eq_true] at h
    rw [List.foldl_cons, List.foldl_cons,
      show radixDigitVal c = digitVal c from by rw [radixDigitVal, if_pos h.1]]
    exact ih h.2 _

/-- An all-digit run never looks like a `0x` hexadecimal prefix. -/
theorem no_hex_of_digits (r : Char) (rtail : List Char)
    (hdig : (r :: rtail).all Char.isDigit = true) :
    ¬ (r = '0' ∧ (rtail.headD ' ' = 'x' ∨ rtail.headD ' ' = 'X')) := by
  rintro ⟨-, hx⟩
  cases rtail with
  | nil => simp at hx
  | cons r2 rtail2 =>
    simp only [List.headD_cons] at hx
    simp only [List.all_cons, Bool.and_eq_true] at hdig
    exact digit_not_x r2 hdig.2.1 hx

/-- `parseDigitsPart` on an all-digit run is its signed decimal value. -/
theorem parseDigitsPart_digits (sign : Int) (r : Char) (rtail : List Char)
    (hdig : (r :: rtail).all Char.isDigit = true) :
    parseDigitsPart sign 10 (r :: rtail) = some (sign * decDigitsVal (r :: rtail)) := by
  rw [parseDigitsPart]
  rw [takeWhile_digits _ hdig, if_neg (by simp), foldl_digits _ hdig, decDigitsVal]

/-- Any string the claim's strict rule parses is parsed to the same value by
`parseInt`. -/
theorem strict_implies_jsParseInt (s : String) (n : Int)
    (h : strictIntOf s = some n) : jsParseInt s = some n := by
  rw [strictIntOf] at h
  cases hcs : s.toList with
  | nil => rw [hcs] at h; cases h
  | cons c rest =>
    rw [hcs] at h
    dsimp only at h
    by_cases hm : c = '-'
    · subst hm
      rw [if_pos rfl] at h
      by_cases hd : rest ≠ [] ∧ rest.all Char.isDigit
      · obtain ⟨hne, hdig⟩ := hd
        rw [if_pos ⟨hne, hdig⟩] at h
        injection h with h
        cases rest with
        | nil => exact absurd rfl hne
        | cons r rtail =>
          have hcs0 : s.toList.dropWhile jsWhitespace = '-' :: r :: rtail := by
            rw [hcs, List.dropWhile_cons, show jsWhitespace '-' = false from rfl]; rfl
          have hnx := no_hex_of_digits r rtail hdig
          rw [jsParseInt, hcs0]
          simp only [List.headD_cons, List.tail_cons, reduceIte, true_or, or_true,
            if_true, eq_self_iff_true, hnx, if_false, ite_false, ite_true]
          rw [parseDigitsPart_digits _ _ _ hdig, ← h, neg_one_mul]
      · rw [if_neg hd] at h; cases h
    · by_cases hp : c = '+'
      · subst hp
        rw [if_neg (by decide), if_pos rfl] at h
        by_cases hd : rest ≠ [] ∧ rest.all Char.isDigit
        · obtain ⟨hne, hdig⟩ := hd
          rw [if_pos ⟨hne, hdig⟩] at h
          injection h with h
          cases rest with
          | nil => exact absurd rfl hne
          | cons r rtail =>
            have hcs0 : s.toList.dropWhile jsWhitespace = '+' :: r :: rtail := by
              rw [hcs, List.dropWhile_cons, show jsWhitespace '+' = false from rfl]; rfl
            have hnx := no_hex_of_digits r rtail hdig
            rw [jsParseInt, hcs0]
            simp only [List.headD_cons, List.tail_cons, reduceIte, true_or, or_true,
              if_true, eq_self_iff_true, hnx, if_false, ite_false, ite_true]
            rw [parseDigitsPart_digits _ _ _ hdig, ← h,
              if_neg (show ¬ ('+' : Char) = '-' by decide), one_mul]
        · rw [if_neg hd] at h; cases h
      · rw [if_neg hm, if_neg hp] at h
        by_cases hd : (c :: rest).all Char.isDigit
        · rw [if_pos hd] at h
          injection h with h
          have hdigc : c.isDigit = true := by
            simp only [List.all_cons, Bool.and_eq_true] at hd; exact hd.1
          have hcs0 : s.toList.dropWhile jsWhitespace = c :: rest := by
            rw [hcs, List.dropWhile_cons, digit_not_ws c hdigc]; rfl
          have hnx := no_hex_of_digits c rest hd
          rw [jsParseInt, hcs0]
          simp only [List.headD_cons, List.tail_cons, hm, hp, hnx, or_self,
            if_false, ite_false, ite_true]
          rw [parseDigitsPart_digits _ _ _ hd, ← h, one_mul]
        · rw [if_neg hd] at h; cases h

/-- C5 (amended): `validateYear` accepts exactly the strings whose JS
`parseInt` prefix-parse yields an integer in `[1900, 2100]` and returns that
integer; in particular every string that strictly parses as an integer in
range is accepted with its value, and every other string is rejected with the
`InvalidYear` error.  This single function is the validation used by the
by-year, by-year-and-state, search, stats and compare handlers. -/
theorem validateYear_semantics (s : String) :
    (∀ n, validateYear s = .ok n ↔ (jsParseInt s = some n ∧ 1900 ≤ n ∧ n ≤ 2100)) ∧
    (∀ n, strictIntOf s = some n → 1900 ≤ n → n ≤ 2100 → validateYear s = .ok n) ∧
    ((∃ n, validateYear s = .ok n) ∨
      validateYear s = .error (.invalidYear "Year must be a valid number between 1900 and 2100")) := by
  have hmain : ∀ n, validateYear s = .ok n ↔ (jsParseInt s = some n ∧ 1900 ≤ n ∧ n ≤ 2100) := by
    intro n
    cases hp : jsParseInt s with
    | none =>
      have hv : validateYear s =
          .error (.invalidYear "Year must be a valid number between 1900 and 2100") := by
        rw [validateYear, hp]
      rw [hv]
      simp
    | some m =>
      have hv : validateYear s =
          (if m < 1900 ∨ m > 2100 then
            .error (.invalidYear "Year must be a valid number between 1900 and 2100")
          else .ok m) := by
        rw [validateYear, hp]
      rw [hv]
      by_cases hr : m < 1900 ∨ m > 2100
      · rw [if_pos hr]
        constructor
        · rintro ⟨⟩
        · rintro ⟨hm, h1, h2⟩
          injection hm with hm
          omega
      · rw [if_neg hr]
        constructor
        · rintro ⟨⟩
          exact ⟨rfl, by omega, by omega⟩
        · rintro ⟨hm, -, -⟩
          injection hm with hm
          rw [hm]
  refine ⟨hmain, ?_, ?_⟩
  · intro n hsn h1 h2
    exact (hmain n).mpr ⟨strict_implies_jsParseInt s n hsn, h1, h2⟩
  · cases hp : jsParseInt s with
    | none =>
      refine Or.inr ?_
      rw [validateYear, hp]
    | some m =>
      have hv : validateYear s =
          (if m < 1900 ∨ m > 2100 then
            .error (.invalidYear "Year must be a valid number between 1900 and 2100")
          else .ok m) := by
        rw [validateYear, hp]
      by_cases hr : m < 1900 ∨ m > 2100
      · refine Or.inr ?_
        rw [hv, if_pos hr]
      · refine Or.inl ⟨m, ?_⟩
        rw [hv, if_neg hr]

/-- Counterexample to C5 as stated: `"2024abc"` does not parse as an integer,
yet year validation accepts it (JS `parseInt` keeps the numeric prefix). -/
theorem validateYear_semantics_cex :
    validateYear "2024abc" = .ok 2024 ∧ strictIntOf "2024abc" = none :=
  ⟨rfl, rfl⟩

/-- Witness for C5 at concrete inputs: `"2024"` is accepted with value 2024,
and `"1899"` is rejected. -/
theorem validateYear_semantics_witness :
    validateYear "2024" = .ok 2024 ∧
    (jsParseInt "2024" = some 2024 ∧ 1900 ≤ (2024 : Int) ∧ (2024 : Int) ≤ 2100) ∧
    ((∃ n, validateYear "1899" = .ok n) ∨
      validateYear "1899" = .error (.invalidYear "Year must be a valid number between 1900 and 2100")) :=
  ⟨(validateYear_semantics "2024").2.1 2024 (by rfl) (by decide) (by decide),
   ((validateYear_semantics "2024").1 2024).mp
     ((validateYear_semantics "2024").2.1 2024 (by rfl) (by decide) (by decide)),
   (validateYear_semantics "1899").2.2⟩

/-! ## C7 and C10: cache behaviour of the record store -/

theorem find?_map_set (c : List (String × YearData)) (k : String) (v : YearData)
    (h : c.any (fun p => p.1 == k) = true) :
    (c.map (fun p => if p.1 == k then (k, v) else p)).find? (fun p => p.1 == k)
      = some (k, v) := by
  induction c with
  | nil => cases h
  | cons p rest ih =>
    rw [List.map_cons]
    by_cases hp : (p.1 == k) = true
    · rw [if_pos hp, List.find?_cons_of_pos _ (by simp)]
    · rw [if_neg hp, List.find?_cons_of_neg _ (by simpa using hp)]
      apply ih
      simpa [List.any_cons, hp] using h

theorem find?_append_new (c : List (String × YearData)) (k : String) (v : YearData)
    (h : c.any (fun p => p.1 == k) = false) :
    (c ++ [(k, v)]).find? (fun p => p.1 == k) = some (k, v) := by
  induction c with
  | nil => simp [List.find?]
  | cons p rest ih =>
    simp only [List.any_cons, Bool.or_eq_false_iff] at h
    rw [List.cons_append, List.find?_cons_of_neg _ (by simp [h.1])]
    exact ih h.2

/-- Writing a year into the cache makes the year's key answer that data. -/
theorem cacheGet_cacheSet_self (c : List (String × YearData)) (k : String)
    (v : YearData) : cacheGet (cacheSet c k v) k = some v := by
  rw [cacheSet, cacheGet]
  by_cases h : c.any (fun p => p.1 == k) = true
  · rw [if_pos h, find?_map_set c k v h]
    rfl
  · rw [if_neg h, find?_append_new c k v (Bool.eq_false_iff.mpr h)]
    rfl

/-- C7: `loadYearData` is idempotent — whenever a call returns a collection,
calling it again for the same year returns the same collection and the very
same store state (so the `reads` instrument does not move: the backing source
is not consulted again). -/
theorem loadYearData_idempotent (fsRead : String → Option YearData)
    (st : LoaderState) (year : Int) (d : YearData) (st' : LoaderState)
    (h : loadYearData fsRead st year = (.ok d, st')) :
    loadYearData fsRead st' year = (.ok d, st') := by
  rw [loadYearData] at h
  cases hc : cacheGet st.cache (toString year) with
  | some data =>
    rw [hc] at h
    injection h with h1 h2
    injection h1 with h1
    subst h1; subst h2
    rw [loadYearData, hc]
  | none =>
    rw [hc] at h
    cases hf : fsRead (toString year) with
    | some data =>
      rw [hf] at h
      injection h with h1 h2
      injection h1 with h1
      subst h1
      rw [loadYearData, ← h2, cacheGet_cacheSet_self]
    | none =>
      rw [hf] at h
      injection h with h1 h2
      cases h1

/-- Witness for C7 at a concrete input: after a first successful load of year
2024 from a one-file backing store, the second call returns the identical
collection and state. -/
theorem loadYearData_idempotent_witness :
    loadYearData (fun s => if s = "2024" then some [] else none)
      { cache := [("2024", [])], availableYears := [2024], reads := 1 } 2024 =
      (.ok [], { cache := [("2024", [])], availableYears := [2024], reads := 1 }) :=
  loadYearData_idempotent (fun s => if s = "2024" then some [] else none)
    { cache := [], availableYears := [2024], reads := 0 } 2024 []
    { cache := [("2024", [])], availableYears := [2024], reads := 1 } rfl

/-- C10: a failed load leaves the cache (and the year list) exactly as it
was, only the read counter moves; since no entry was inserted, a later call
for the same year consults the backing source again (the instrument moves
again and the same source answer is surfaced) instead of returning a cached
failure. -/
theorem loadYearData_failure (fsRead : String → Option YearData)
    (st : LoaderState) (year : Int) (e : ApiError) (st' : LoaderState)
    (h : loadYearData fsRead st year = (.error e, st')) :
    st'.cache = st.cache ∧ st'.availableYears = st.availableYears ∧
    st'.reads = st.reads + 1 ∧
    (loadYearData fsRead st' year).2.reads = st'.reads + 1 ∧
    (loadYearData fsRead st' year).1 = .error e := by
  rw [loadYearData] at h
  cases hc : cacheGet st.cache (toString year) with
  | some data =>
    rw [hc] at h
    injection h with h1 h2
    cases h1
  | none =>
    rw [hc] at h
    cases hf : fsRead (toString year) with
    | some data =>
      rw [hf] at h
      injection h with h1 h2
      cases h1
    | none =>
      rw [hf] at h
      injection h with h1 h2
      subst h2
      have hsecond : loadYearData fsRead
          { st with reads := st.reads + 1 } year =
          (.error (.dataUnavailable
              ("Data for year " ++ toString year ++ " not found or invalid")),
           { st with reads := st.reads + 1 + 1 }) := by
        rw [loadYearData]
        dsimp only
        rw [hc, hf]
      refine ⟨rfl, rfl, rfl, ?_, ?_⟩
      · rw [hsecond]
      · rw [hsecond]
        exact h1

/-- Witness for C10 at a concrete input: loading year 2024 from an empty
backing store fails, keeps the cache empty, counts one read, and a repeat
call reads (and fails) again. -/
theorem loadYearData_failure_witness :
    ({ cache := ([] : List (String × YearData)), availableYears := ([] : List Int),
       reads := 1 } : LoaderState).cache =
        ({ cache := [], availableYears := [], reads := 0 } : LoaderState).cache ∧
    ({ cache := ([] : List (String × YearData)), availableYears := ([] : List Int),
       reads := 1 } : LoaderState).availableYears =
        ({ cache := [], availableYears := [], reads := 0 } : LoaderState).availableYears ∧
    ({ cache := ([] : List (String × YearData)), availableYears := ([] : List Int),
       reads := 1 } : LoaderState).reads =
        ({ cache := [], availableYears := [], reads := 0 } : LoaderState).reads + 1 ∧
    (loadYearData (fun _ => none)
      { cache := [], availableYears := [], reads := 1 } 2024).2.reads =
        ({ cache := ([] : List (String × YearData)), availableYears := ([] : List Int),
           reads := 1 } : LoaderState).reads + 1 ∧
    (loadYearData (fun _ => none)
      { cache := [], availableYears := [], reads := 1 } 2024).1 =
        .error (.dataUnavailable "Data for year 2024 not found or invalid") :=
  loadYearData_failure (fun _ => none)
    { cache := [], availableYears := [], reads := 0 } 2024
    (.dataUnavailable "Data for year 2024 not found or invalid")
    { cache := [], availableYears := [], reads := 1 } rfl

/-! ## C8: exactness of field projection -/

theorem objHas_append (a b : JsObj) (k : String) :
    objHas (a ++ b) k = (objHas a k || objHas b k) := by
  simp [objHas, List.any_append]

/-- The projection loop run from an accumulator whose keys avoid the
remaining (distinct) fields appends exactly the requested key/value pairs in
request order. -/
theorem selectOne_loop (holiday : JsObj) (fields : List String) (acc : JsObj)
    (hhas : ∀ f ∈ fields, objHas holiday f = true)
    (hnd : fields.Nodup)
    (hdisj : ∀ f ∈ fields, objHas acc f = false) :
    fields.foldl
      (fun selected field =>
        if objHas holiday field then objSet selected field (objGet holiday field)
        else selected) acc
      = acc ++ fields.map (fun f => (f, objGet holiday f)) := by
  induction fields generalizing acc with
  | nil => simp
  | cons f rest ih =>
    rw [List.foldl_cons, if_pos (hhas f (List.mem_cons_self f rest))]
    have hset : objSet acc f (objGet holiday f) = acc ++ [(f, objGet holiday f)] := by
      rw [objSet, if_neg]
      simp [hdisj f (List.mem_cons_self f rest)]
    rw [hset]
    have hdisj' : ∀ g ∈ rest, objHas (acc ++ [(f, objGet holiday f)]) g = false := by
      intro g hg
      have h1 : objHas acc g = false := hdisj g (List.mem_cons_of_mem f hg)
      have hne2 : f ≠ g := fun hfg => by
        subst hfg
        exact (List.nodup_cons.mp hnd).1 hg
      have h2 : (f == g) = false := beq_eq_false_iff_ne.mpr hne2
      rw [objHas_append, h1, Bool.false_or]
      simp [objHas, h2]
    rw [ih (acc ++ [(f, objGet holiday f)])
      (fun g hg => hhas g (List.mem_cons_of_mem f hg)) (List.Nodup.of_cons hnd) hdisj']
    rw [List.append_assoc, List.singleton_append, List.map_cons]

/-- C8: on a valid non-empty field parameter with distinct entries,
`selectFields` maps every record through the projection loop, and on a record
that owns all requested fields the projection yields exactly the requested
keys, in the order they were given, with the record's values unchanged. -/
theorem selectFields_projection (os : List JsObj) (fieldsStr : String)
    (hne : fieldsStr ≠ "")
    (hvalid : ∀ f ∈ (jsSplitComma fieldsStr).map (fun f => jsTrim f),
      validFields.contains f = true)
    (hnd : ((jsSplitComma fieldsStr).map (fun f => jsTrim f)).Nodup) :
    selectFields os fieldsStr =
      .ok (os.map (selectOne ((jsSplitComma fieldsStr).map (fun f => jsTrim f)))) ∧
    ∀ h : JsObj,
      (∀ f ∈ (jsSplitComma fieldsStr).map (fun f => jsTrim f), objHas h f = true) →
      selectOne ((jsSplitComma fieldsStr).map (fun f => jsTrim f)) h =
        ((jsSplitComma fieldsStr).map (fun f => jsTrim f)).map
          (fun f => (f, objGet h f)) := by
  constructor
  · rw [selectFields, if_neg hne]
    dsimp only
    rw [if_neg]
    simp only [ne_eq, not_not, List.filter_eq_nil_iff]
    intro f hf
    simpa using hvalid f hf
  · intro h hhas
    rw [selectOne, selectOne_loop h _ [] hhas hnd (fun f _ => rfl)]
    rfl

/-- Witness for C8 at the spec's concrete input: projecting the sample object
to `"name,stateCode"` keeps exactly those two keys in that order. -/
theorem selectFields_projection_witness :
    selectFields
      [[("start", JsVal.str "2024-07-25T00:00Z"), ("end", JsVal.str "2024-09-08T00:00Z"),
        ("year", JsVal.num 2024), ("stateCode", JsVal.str "BY"),
        ("name", JsVal.str "sommerferien"), ("slug", JsVal.str "sommerferien-2024-BY")]]
      "name,stateCode" =
      .ok [[("name", JsVal.str "sommerferien"), ("stateCode", JsVal.str "BY")]] := by
  have h := selectFields_projection
    [[("start", JsVal.str "2024-07-25T00:00Z"), ("end", JsVal.str "2024-09-08T00:00Z"),
      ("year", JsVal.num 2024), ("stateCode", JsVal.str "BY"),
      ("name", JsVal.str "sommerferien"), ("slug", JsVal.str "sommerferien-2024-BY")]]
    "name,stateCode" (by decide) (by decide) (by decide)
  rw [h.1, List.map_cons, List.map_nil, h.2 _ (by decide)]
  rfl

/-! ## C9: what order `availableYears` really has -/

/-- The string order of the JS default sort, on numbers. -/
def strOrder (a b : Int) : Prop :=
  lexLeChars (toString a).toList (toString b).toList = true

instance : DecidableRel strOrder := fun a b => by
  rw [strOrder]; infer_instance

theorem lexLeChars_total (as bs : List Char) :
    lexLeChars as bs = true ∨ lexLeChars bs as = true := by
  induction as generalizing bs with
  | nil => left; rfl
  | cons a atail ih =>
    cases bs with
    | nil => right; rfl
    | cons b btail =>
      by_cases hab : a = b
      · subst hab
        rcases ih btail with h | h
        · left; simp [lexLeChars, h]
        · right; simp [lexLeChars, h]
      · rcases lt_or_gt_of_ne hab with hlt | hgt
        · left; simp [lexLeChars, hab, hlt]
        · right
          have hba : ¬ b = a := fun h => hab h.symm
          simp [lexLeChars, hba, hgt]

theorem lexLeChars_trans (as bs cs : List Char)
    (h1 : lexLeChars as bs = true) (h2 : lexLeChars bs cs = true) :
    lexLeChars as cs = true := by
  induction as generalizing bs cs with
  | nil => rfl
  | cons a atail ih =>
    cases bs with
    | nil => simp [lexLeChars] at h1
    | cons b btail =>
      cases cs with
      | nil => simp [lexLeChars] at h2
      | cons c ctail =>
        by_cases hab : a = b <;> by_cases hbc : b = c
        · subst hab; subst hbc
          simp only [lexLeChars, if_pos rfl] at h1 h2 ⊢
          exact ih btail ctail h1 h2
        · subst hab
          simp only [lexLeChars, if_pos rfl, hbc, if_neg, ite_false, reduceIte,
            decide_eq_true_eq] at h2
          simp only [lexLeChars, hbc, if_neg, ite_false, reduceIte, decide_eq_true_eq]
          exact h2
        · subst hbc
          simp only [lexLeChars, hab, if_neg, ite_false, reduceIte,
            decide_eq_true_eq] at h1
          simp only [lexLeChars, hab, if_neg, ite_false, reduceIte, decide_eq_true_eq]
          exact h1
        · simp only [lexLeChars, hab, hbc, if_neg, ite_false, reduceIte,
            decide_eq_true_eq] at h1 h2
          have hac : a < c := lt_trans h1 h2
          simp [lexLeChars, ne_of_lt hac, hac]

theorem perm_sortInsert (x : Int) (l : List Int) :
    (sortInsert x l).Perm (x :: l) := by
  induction l with
  | nil => exact List.Perm.refl _
  | cons y t ih =>
    rw [sortInsert]
    by_cases hc : lexLeChars (toString x).toList (toString y).toList = true
    · rw [if_pos hc]
    · rw [if_neg hc]
      exact (ih.cons y).trans (List.Perm.swap x y t)

theorem sorted_sortInsert (x : Int) (l : List Int)
    (h : List.Sorted strOrder l) : List.Sorted strOrder (sortInsert x l) := by
  induction l with
  | nil =>
    rw [show sortInsert x [] = [x] from rfl]
    exact List.sorted_singleton x
  | cons y t ih =>
    rw [sortInsert]
    by_cases hc : lexLeChars (toString x).toList (toString y).toList = true
    · rw [if_pos hc]
      rw [List.sorted_cons]
      refine ⟨?_, h⟩
      intro b hb
      rcases List.mem_cons.mp hb with rfl | hbt
      · exact hc
      · exact lexLeChars_trans _ _ _ hc ((List.sorted_cons.mp h).1 b hbt)
    · rw [if_neg hc]
      rw [List.sorted_cons] at h ⊢
      refine ⟨?_, ih h.2⟩
      intro b hb
      have hb' := (perm_sortInsert x t).mem_iff.mp hb
      rcases List.mem_cons.mp hb' with rfl | hbt
      · rcases lexLeChars_total (toString b).toList (toString y).toList with h1 | h1
        · exact absurd h1 hc
        · exact h1
      · exact h.1 b hbt

theorem perm_jsDefaultSort (l : List Int) : (jsDefaultSort l).Perm l := by
  induction l with
  | nil => exact List.Perm.refl _
  | cons x t ih =>
    exact (perm_sortInsert x (jsDefaultSort t)).trans (ih.cons x)

theorem sorted_jsDefaultSort (l : List Int) :
    List.Sorted strOrder (jsDefaultSort l) := by
  induction l with
  | nil => exact List.sorted_nil
  | cons x t ih => exact sorted_sortInsert x (jsDefaultSort t) ih

/-- C9 (amended): `availableYears` is the list of `parseInt` values of the
`.json` file names of the backing directory, sorted ascending in the JS
default sort order — lexicographically by decimal string, which agrees with
numeric order on the equal-width four-digit years of the repository but not
in general; the list is fixed by the constructor, returned as-is by
`getAvailableYears`, and no load ever changes it. -/
theorem availableYears_sorted (files : List String) :
    List.Sorted strOrder (getAvailableYearsOf files) ∧
    (getAvailableYearsOf files).Perm
      (((files.filter (fun f => jsEndsWith f ".json")).map
        (fun f => jsParseInt (String.mk (removeFirstOcc ".json".toList f.toList)))).filterMap id) ∧
    getAvailableYears (mkDataLoader files) = getAvailableYearsOf files ∧
    (∀ fsRead st year, ((loadYearData fsRead st year).2).availableYears
      = st.availableYears) := by
  refine ⟨sorted_jsDefaultSort _, perm_jsDefaultSort _, rfl, ?_⟩
  intro fsRead st year
  rw [loadYearData]
  cases hc : cacheGet st.cache (toString year) with
  | some data => rfl
  | none =>
    cases hf : fsRead (toString year) with
    | some data => rfl
    | none => rfl

/-- Counterexample to C9 as stated: a backing store holding years 999 and
1000 yields the list `[1000, 999]`, which is not in ascending numeric
order — the JS default sort compares the decimal strings. -/
theorem availableYears_sorted_cex :
    getAvailableYearsOf ["999.json", "1000.json"] = [1000, 999] ∧
    ¬ List.Sorted (· ≤ ·) ([1000, 999] : List Int) :=
  ⟨rfl, by decide⟩

/-! ## C6: the statistics calculator -/

/-- Running maximum of the durations of `hs` above the base `b`. -/
def durMaxFrom (b : Int) (hs : List Holiday) : Int :=
  (hs.map statDuration).foldl max b

/-- Running minimum of the durations of `hs` below the base `b`. -/
def durMinFrom (b : Int) (hs : List Holiday) : Int :=
  (hs.map statDuration).foldl min b

theorem durMaxFrom_cons (b : Int) (h : Holiday) (t : List Holiday) :
    durMaxFrom b (h :: t) = durMaxFrom (max b (statDuration h)) t := rfl

theorem durMinFrom_cons (b : Int) (h : Holiday) (t : List Holiday) :
    durMinFrom b (h :: t) = durMinFrom (min b (statDuration h)) t := rfl

theorem durMaxFrom_spec (t : List Holiday) (b : Int) :
    (durMaxFrom b t = b ∨ ∃ h ∈ t, statDuration h = durMaxFrom b t) ∧
    b ≤ durMaxFrom b t ∧ ∀ h ∈ t, statDuration h ≤ durMaxFrom b t := by
  induction t generalizing b with
  | nil => exact ⟨Or.inl rfl, le_refl b, fun h hh => absurd hh (List.not_mem_nil h)⟩
  | cons x xs ih =>
    obtain ⟨hat, hle, hub⟩ := ih (max b (statDuration x))
    rw [durMaxFrom_cons]
    refine ⟨?_, le_trans (le_max_left _ _) hle, ?_⟩
    · rcases hat with heq | ⟨h, hh, hd⟩
      · rcases max_choice b (statDuration x) with hm | hm
        · exact Or.inl (by rw [heq, hm])
        · exact Or.inr ⟨x, List.mem_cons_self x xs, by rw [heq, hm]⟩
      · exact Or.inr ⟨h, List.mem_cons_of_mem x hh, hd⟩
    · intro h hh
      rcases List.mem_cons.mp hh with rfl | hht
      · exact le_trans (le_max_right _ _) hle
      · exact hub h hht

theorem durMinFrom_spec (t : List Holiday) (b : Int) :
    (durMinFrom b t = b ∨ ∃ h ∈ t, statDuration h = durMinFrom b t) ∧
    durMinFrom b t ≤ b ∧ ∀ h ∈ t, durMinFrom b t ≤ statDuration h := by
  induction t generalizing b with
  | nil => exact ⟨Or.inl rfl, le_refl b, fun h hh => absurd hh (List.not_mem_nil h)⟩
  | cons x xs ih =>
    obtain ⟨hat, hle, hlb⟩ := ih (min b (statDuration x))
    rw [durMinFrom_cons]
    refine ⟨?_, le_trans hle (min_le_left _ _), ?_⟩
    · rcases hat with heq | ⟨h, hh, hd⟩
      · rcases min_choice b (statDuration x) with hm | hm
        · exact Or.inl (by rw [heq, hm])
        · exact Or.inr ⟨x, List.mem_cons_self x xs, by rw [heq, hm]⟩
      · exact Or.inr ⟨h, List.mem_cons_of_mem x hh, hd⟩
    · intro h hh
      rcases List.mem_cons.mp hh with rfl | hht
      · exact le_trans hle (min_le_right _ _)
      · exact hlb h hht

theorem statStep_maxDays (st : StatState) (h : Holiday) :
    (statStep st h).maxDays = max st.maxDays (statDuration h) := by
  rw [statStep]
  by_cases hc : statDuration h > st.maxDays
  · rw [if_pos hc]
    exact (max_eq_right (le_of_lt hc)).symm
  · rw [if_neg hc]
    exact (max_eq_left (not_lt.mp hc)).symm

theorem statStep_minDays_some (st : StatState) (h : Holiday) (m : Int)
    (hm : st.minDays = some m) :
    (statStep st h).minDays = some (min m (statDuration h)) := by
  rw [statStep]
  dsimp only
  rw [hm, ltMinDays]
  by_cases hc : statDuration h < m
  · rw [if_pos (by simpa using hc), min_eq_right (le_of_lt hc)]
  · rw [if_neg (by simpa using hc), min_eq_left (not_lt.mp hc)]

theorem statFold_totalDays (hs : List Holiday) (st : StatState) :
    (statFold st hs).totalDays = st.totalDays + (hs.map statDuration).sum := by
  induction hs generalizing st with
  | nil => simp [statFold]
  | cons h t ih =>
    rw [statFold, ih]
    rw [show (statStep st h).totalDays = st.totalDays + statDuration h from rfl]
    rw [List.map_cons, List.sum_cons]
    ring

theorem statFold_maxDays (hs : List Holiday) (st : StatState) :
    (statFold st hs).maxDays = durMaxFrom st.maxDays hs := by
  induction hs generalizing st with
  | nil => rfl
  | cons h t ih =>
    rw [statFold, ih, durMaxFrom_cons, statStep_maxDays]

theorem statFold_minDays_some (hs : List Holiday) (st : StatState) (m : Int)
    (hm : st.minDays = some m) :
    (statFold st hs).minDays = some (durMinFrom m hs) := by
  induction hs generalizing st m with
  | nil => exact hm
  | cons h t ih =>
    rw [statFold, durMinFrom_cons]
    exact ih (statStep st h) (min m (statDuration h)) (statStep_minDays_some st h m hm)

theorem statFold_longest (hs : List Holiday) (st : StatState) :
    (statFold st hs).longest =
      if st.maxDays < durMaxFrom st.maxDays hs then
        (hs.find? (fun h => statDuration h == durMaxFrom st.maxDays hs)).map
          (fun h => (h, statDuration h))
      else st.longest := by
  induction hs generalizing st with
  | nil =>
    rw [show durMaxFrom st.maxDays [] = st.maxDays from rfl, if_neg (lt_irrefl st.maxDays)]
    rfl
  | cons h t ih =>
    rw [statFold, ih, durMaxFrom_cons, statStep_maxDays]
    have hbase := (durMaxFrom_spec t (max st.maxDays (statDuration h))).2.1
    by_cases hA : max st.maxDays (statDuration h) <
        durMaxFrom (max st.maxDays (statDuration h)) t
    · rw [if_pos hA,
        if_pos (lt_of_le_of_lt (le_max_left _ _) hA),
        List.find?_cons_of_neg _ (by
          simp only [beq_iff_eq]
          exact ne_of_lt (lt_of_le_of_lt (le_max_right _ _) hA))]
    · have hMeq : durMaxFrom (max st.maxDays (statDuration h)) t
          = max st.maxDays (statDuration h) := le_antisymm (not_lt.mp hA) hbase
      rw [if_neg hA, hMeq]
      by_cases hB : statDuration h > st.maxDays
      · rw [max_eq_right (le_of_lt hB)]
        rw [if_pos hB,
          List.find?_cons_of_pos _ (by simp),
          show (statStep st h).longest = some (h, statDuration h) from by
            rw [statStep]; dsimp only; rw [if_pos hB]]
        rfl
      · rw [max_eq_left (not_lt.mp hB), if_neg (lt_irrefl _)]
        rw [show (statStep st h).longest = st.longest from by
          rw [statStep]; dsimp only; rw [if_neg hB]]

theorem statFold_shortest_some (hs : List Holiday) (st : StatState) (m : Int)
    (hm : st.minDays = some m) :
    (statFold st hs).shortest =
      if durMinFrom m hs < m then
        (hs.find? (fun h => statDuration h == durMinFrom m hs)).map
          (fun h => (h, statDuration h))
      else st.shortest := by
  induction hs generalizing st m with
  | nil =>
    rw [show durMinFrom m [] = m from rfl, if_neg (lt_irrefl m)]
    rfl
  | cons h t ih =>
    rw [statFold, durMinFrom_cons,
      ih (statStep st h) (min m (statDuration h)) (statStep_minDays_some st h m hm)]
    have hbase := (durMinFrom_spec t (min m (statDuration h))).2.1
    by_cases hA : durMinFrom (min m (statDuration h)) t < min m (statDuration h)
    · rw [if_pos hA,
        if_pos (lt_of_lt_of_le hA (min_le_left _ _)),
        List.find?_cons_of_neg _ (by
          simp only [beq_iff_eq]
          exact ne_of_gt (lt_of_lt_of_le hA (min_le_right _ _)))]
    · have hNeq : durMinFrom (min m (statDuration h)) t
          = min m (statDuration h) := le_antisymm hbase (not_lt.mp hA)
      rw [if_neg hA, hNeq]
      by_cases hB : statDuration h < m
      · rw [min_eq_right (le_of_lt hB)]
        rw [if_pos hB,
          List.find?_cons_of_pos _ (by simp),
          show (statStep st h).shortest = some (h, statDuration h) from by
            rw [statStep]; dsimp only; rw [hm, ltMinDays, if_pos (by simpa using hB)]]
        rfl
      · rw [min_eq_left (not_lt.mp hB), if_neg (lt_irrefl _)]
        rw [show (statStep st h).shortest = st.shortest from by
          rw [statStep]; dsimp only; rw [hm, ltMinDays, if_neg (by simpa using hB)]]

/-- C6: over a non-empty year collection whose records satisfy the
`start ≤ end` invariant, the stats handler computes each record's duration as
`ceil((end − start) / 1 day) + 1` (the definition of `statDuration`, all of
them at least 1), the average as the mean of those durations put through the
JS 2-decimal rounding `Math.round(x * 100) / 100`, and the longest/shortest
holiday as the first record in collection order attaining the maximal (resp.
minimal) duration, annotated with that duration - the first record wins
ties on both ends. -/
theorem statsSemantics (year : Int) (hs : List Holiday) (hne : hs ≠ [])
    (hval : ∀ h ∈ hs, h.startMs ≤ h.endMs) :
    (computeStats year hs).totalHolidays = hs.length ∧
    (computeStats year hs).averageDuration =
      (jsRound ((((hs.map statDuration).sum : ℚ) / (hs.length : ℚ)) * 100) : ℚ) / 100 ∧
    (∀ h ∈ hs, 1 ≤ statDuration h) ∧
    (∃ M N : Int,
      ((∃ h ∈ hs, statDuration h = M) ∧ ∀ h ∈ hs, statDuration h ≤ M) ∧
      (computeStats year hs).longestHoliday =
        (hs.find? (fun h => statDuration h == M)).map (fun h => (h, statDuration h)) ∧
      ((∃ h ∈ hs, statDuration h = N) ∧ ∀ h ∈ hs, N ≤ statDuration h) ∧
      (computeStats year hs).shortestHoliday =
        (hs.find? (fun h => statDuration h == N)).map (fun h => (h, statDuration h))) := by
  have hpos : ∀ h ∈ hs, 1 ≤ statDuration h := by
    intro h hh
    have hse := hval h hh
    rw [statDuration]
    have hc : (0 : Int) ≤ ⌈((h.endMs - h.startMs : Int) : ℚ) / (24 * 60 * 60 * 1000)⌉ := by
      apply Int.ceil_nonneg
      apply div_nonneg
      · exact_mod_cast sub_nonneg.mpr hse
      · norm_num
    omega
  refine ⟨rfl, ?_, hpos, ?_⟩
  · show (jsRound ((((statFold statInit hs).totalDays : ℚ) / (hs.length : ℚ)) * 100) : ℚ) / 100
      = _
    rw [statFold_totalDays hs statInit, show statInit.totalDays = 0 from rfl, zero_add]
  · cases hs with
    | nil => exact absurd rfl hne
    | cons h t =>
      have hd1 : 1 ≤ statDuration h := hpos h (List.mem_cons_self h t)
      have h1max : (statStep statInit h).maxDays = statDuration h := by
        show (if statDuration h > (0 : Int) then statDuration h
          else (0 : Int)) = _
        rw [if_pos (show statDuration h > (0 : Int) by omega)]
      have h1long : (statStep statInit h).longest = some (h, statDuration h) := by
        show (if statDuration h > (0 : Int) then some (h, statDuration h)
          else none) = _
        rw [if_pos (show statDuration h > (0 : Int) by omega)]
      have h1min : (statStep statInit h).minDays = some (statDuration h) := by
        show (if ltMinDays (statDuration h) none then some (statDuration h)
          else none) = _
        rw [if_pos (by rfl)]
      have h1short : (statStep statInit h).shortest = some (h, statDuration h) := by
        show (if ltMinDays (statDuration h) none then some (h, statDuration h)
          else none) = _
        rw [if_pos (by rfl)]
      refine ⟨durMaxFrom (statDuration h) t, durMinFrom (statDuration h) t,
        ⟨?_, ?_⟩, ?_, ⟨?_, ?_⟩, ?_⟩
      · rcases (durMaxFrom_spec t (statDuration h)).1 with heq | ⟨x, hx, hd⟩
        · exact ⟨h, List.mem_cons_self h t, heq.symm⟩
        · exact ⟨x, List.mem_cons_of_mem h hx, hd⟩
      · intro x hx
        rcases List.mem_cons.mp hx with rfl | hxt
        · exact (durMaxFrom_spec t (statDuration x)).2.1
        · exact (durMaxFrom_spec t (statDuration h)).2.2 x hxt
      · show (statFold (statStep statInit h) t).longest = _
        rw [statFold_longest t (statStep statInit h), h1max, h1long]
        by_cases hA : statDuration h < durMaxFrom (statDuration h) t
        · rw [if_pos hA,
            List.find?_cons_of_neg _ (by simp only [beq_iff_eq]; exact ne_of_lt hA)]
        · have heq : durMaxFrom (statDuration h) t = statDuration h :=
            le_antisymm (not_lt.mp hA) (durMaxFrom_spec t (statDuration h)).2.1
          rw [if_neg hA, heq, List.find?_cons_of_pos _ (by simp)]
          rfl
      · rcases (durMinFrom_spec t (statDuration h)).1 with heq | ⟨x, hx, hd⟩
        · exact ⟨h, List.mem_cons_self h t, heq.symm⟩
        · exact ⟨x, List.mem_cons_of_mem h hx, hd⟩
      · intro x hx
        rcases List.mem_cons.mp hx with rfl | hxt
        · exact (durMinFrom_spec t (statDuration x)).2.1
        · exact (durMinFrom_spec t (statDuration h)).2.2 x hxt
      · show (statFold (statStep statInit h) t).shortest = _
        rw [statFold_shortest_some t (statStep statInit h) (statDuration h) h1min, h1short]
        by_cases hA : durMinFrom (statDuration h) t < statDuration h
        · rw [if_pos hA,
            List.find?_cons_of_neg _ (by simp only [beq_iff_eq]; exact ne_of_gt hA)]
        · have heq : durMinFrom (statDuration h) t = statDuration h :=
            le_antisymm (durMinFrom_spec t (statDuration h)).2.1 (not_lt.mp hA)
          rw [if_neg hA, heq, List.find?_cons_of_pos _ (by simp)]
          rfl

/-- A one-day Easter record (duration 2 days). -/
def statsHolA : Holiday :=
  { startMs := 0, endMs := 86400000, year := 2024, stateCode := "BY",
    name := "osterferien", slug := "osterferien-2024-BY" }

/-- A two-day summer record (duration 3 days). -/
def statsHolB : Holiday :=
  { startMs := 0, endMs := 172800000, year := 2024, stateCode := "BW",
    name := "sommerferien", slug := "sommerferien-2024-BW" }

/-- Witness for C6 at a concrete input: a two-record collection with
durations 2 and 3 days. -/
theorem statsSemantics_witness :
    (computeStats 2024 [statsHolA, statsHolB]).totalHolidays =
      [statsHolA, statsHolB].length ∧
    (computeStats 2024 [statsHolA, statsHolB]).averageDuration =
      (jsRound (((([statsHolA, statsHolB].map statDuration).sum : ℚ) /
        ([statsHolA, statsHolB].length : ℚ)) * 100) : ℚ) / 100 :=
  ⟨(statsSemantics 2024 [statsHolA, statsHolB] (by decide)
      (by intro h hh; fin_cases hh <;> decide)).1,
   (statsSemantics 2024 [statsHolA, statsHolB] (by decide)
      (by intro h hh; fin_cases hh <;> decide)).2.1⟩

end SchulferienApi
